import Mathlib

/-!
Verification of the pallet `Call` expansion
(`frame/support/procedural/src/pallet/expand/call.rs`).

The source is a compile-time code generator: from a normalized table of
dispatchable methods it emits the `Call` enum, the `UnfilteredDispatchable`
dispatcher, the `GetDispatchInfo` classifier, the `GetCallName` accessors, the
`call_functions` metadata table, and a uniquely named probe used to detect a
missing `#[pallet::call]` block.  We embed both levels: the generator's own
computations over the method table, and the runtime semantics of the code it
emits (with the external collaborators — pallet method bodies, `Into`
conversions, the weight traits, and the codec — kept abstract, as the spec
itself declares them external).
-/

namespace SubstrateCall

/-- One entry of the normalized method table, as consumed by `expand_call`
(source `call.rs`): a method name, the ordered argument list where each
argument is `(is_compact, arg_name, type)` with the type kept as its token
string, the declared weight expression (abstract type `W`), and the doc
strings. -/
structure MethodSpec (W : Type) where
  name : String
  args : List (Bool × String × String)
  weight : W
  docs : List String

/-- Source line 62: the list of method names, in declaration order. -/
def fn_name (methods : List (MethodSpec W)) : List String :=
  methods.map (fun m => m.name)

/-- Source line 64: the list of weight expressions, in declaration order. -/
def fn_weight (methods : List (MethodSpec W)) : List W :=
  methods.map (fun m => m.weight)

/-- Source line 66: per-method doc strings, in declaration order. -/
def fn_doc (methods : List (MethodSpec W)) : List (List String) :=
  methods.map (fun m => m.docs)

/-- Source lines 68-70: per-method argument names, in declared order. -/
def args_name (methods : List (MethodSpec W)) : List (List String) :=
  methods.map (fun m => m.args.map (fun a => a.2.1))

/-- Source lines 72-74: per-method argument types, in declared order. -/
def args_type (methods : List (MethodSpec W)) : List (List String) :=
  methods.map (fun m => m.args.map (fun a => a.2.2))

/-- Modelled from the spec: `clean_type_string` is defined in
`frame_support_procedural_tools`, which is not part of this source snapshot.
The spec describes it as a canonicalizing string-cleaning step that erases
surface whitespace differences so that structurally identical types yield
byte-identical strings; we model it as removal of every whitespace
character. -/
def clean_type_string (s : String) : String :=
  String.mk (s.data.filter (fun c => !c.isWhitespace))

/-- Source lines 76-86 (per argument): the field attribute emitted at the
type-definition site.  A compact argument gets the token
`#[codec(compact)]`; a plain argument gets the empty token stream. -/
def arg_field_attr (a : Bool × String × String) : String :=
  if a.1 then "#[codec(compact)]" else ""

/-- Source lines 76-86: the table of field attributes. -/
def args_compact_attr (methods : List (MethodSpec W)) : List (List String) :=
  methods.map (fun m => m.args.map arg_field_attr)

/-- Source lines 88-99 (per argument): the metadata type string.  A compact
argument is first wrapped as `Compact<T>`, a plain one kept bare, and the
result is passed through `clean_type_string`. -/
def arg_metadata_type (a : Bool × String × String) : String :=
  if a.1 then clean_type_string ("Compact<" ++ a.2.2 ++ ">")
  else clean_type_string a.2.2

/-- Source lines 88-99: the table of metadata type strings. -/
def args_metadata_type (methods : List (MethodSpec W)) : List (List String) :=
  methods.map (fun m => m.args.map arg_metadata_type)

/-- The `#[pallet::call]` block as carried by `Def` (its methods and docs are
what `expand_call` reads at source lines 43-51). -/
structure CallDef (W : Type) where
  methods : List (MethodSpec W)
  docs : List String

/-- The slice of the pallet `Def` that `expand_call` consults: whether a call
block was declared, and its contents when it was (source lines 43-53).  The
full `Def` lives in the parsing module outside this snapshot; only the `call`
field is read here. -/
structure Def (W : Type) where
  call : Option (CallDef W)

/-- Source lines 43-53: the method table used for expansion — the declared
methods when a call block exists, the empty table otherwise. -/
def def_methods (d : Def W) : List (MethodSpec W) :=
  match d.call with
  | some call => call.methods
  | none => []

/-- The exact message of the `compile_error!` emitted at source line 112. -/
def no_call_message : String :=
  "Pallet does not have #[pallet::call] defined. Did you forget to include it?"

/-- Source lines 110-116, combined with lines 121-127: the body of the
emitted probe.  Expanding the probe yields the `compile_error!` with
`no_call_message` exactly when the pallet declared no call block at all, and
expands to nothing (a no-op) when a call block exists — even an empty one. -/
def maybe_compile_error (d : Def W) : Option String :=
  if d.call.isNone then some no_call_message else none

/-- Source lines 23-31: the counter cell.  The Rust field is a `u64`. -/
structure Counter where
  val : Nat

/-- The modulus of the host `u64`, bounding the counter. -/
def U64_SIZE : Nat := 2 ^ 64

/-- Source lines 26-30: `inc` returns the current value and then increments
the cell (with `u64` wrap-around semantics). -/
def Counter.inc (c : Counter) : Nat × Counter :=
  (c.val, ⟨(c.val + 1) % U64_SIZE⟩)

/-- Source lines 33-38: the counter is declared `thread_local!`, so every
thread owns its own cell, initialized to `Counter(0)` on that thread's first
access.  `thread_counter t n` is thread `t`'s cell after `n` increments; the
state never depends on any other thread. -/
def thread_counter : Nat → Nat → Counter
  | _, 0 => ⟨0⟩
  | t, n + 1 => ((thread_counter t n).inc).2

/-- The value handed out by the `n`-th `inc` call (0-indexed) on thread `t`
(source line 118). -/
def thread_nth_count (t n : Nat) : Nat :=
  ((thread_counter t n).inc).1

/-- Decimal rendering of a counter value, as characters.  Modelled from the
spec: the actual rendering is Rust's `format!("{}", count)` from the standard
library, outside this snapshot; we model standard decimal notation. -/
def formatNatChars (n : Nat) : List Char :=
  if n = 0 then ['0'] else (Nat.digits 10 n).reverse.map Nat.digitChar

/-- Inverse decimal reading, used to prove the rendering injective. -/
def unformatChars (l : List Char) : Nat :=
  Nat.ofDigits 10 ((l.map (fun c => c.toNat - 48)).reverse)

/-- Source line 119: the helper identifier
`__is_call_part_defined_{count}`. -/
def probe_ident (count : Nat) : String :=
  String.mk ("__is_call_part_defined_".data ++ formatNatChars count)

/-- Source lines 143-151: the variant tags of the emitted `Call` enum — the
`__Ignore` sentinel plus one variant per method, in declaration order. -/
def call_enum_variants (methods : List (MethodSpec W)) : List String :=
  "__Ignore" :: fn_name methods

/-- A value of the emitted `Call` enum, with the argument value domain
abstracted to `V`.  `__Ignore` carries the `PhantomData` marker (modelled by
`Unit`) and a `frame_support::Never` field, which is uninhabited — modelled
by `Empty` — so the sentinel can never be constructed (source lines
144-149).  `variant i args` stands for the variant of the `i`-th declared
method holding its bound arguments in declared order (source line 150). -/
inductive Call (V : Type) (n : Nat) : Type where
  | __Ignore (phantom : Unit) (never : Empty) : Call V n
  | variant (idx : Fin n) (args : List V) : Call V n

/-- The three dispatch classes of `DispatchInfo` (spec section 3). -/
inductive DispatchClass where
  | Normal
  | Operational
  | Mandatory
deriving DecidableEq

/-- The `DispatchInfo` triple returned by `get_dispatch_info`.  The source
field `class` is a Lean keyword, so it is named `dispatch_class` here. -/
structure DispatchInfo where
  weight : Nat
  dispatch_class : DispatchClass
  pays_fee : Bool
deriving DecidableEq

/-- The external collaborators the generated code links against, kept
abstract exactly as the spec's boundary contracts (spec section 6): the
concrete pallet methods (keyed by method name, taking the origin and the
argument list), the two uniform `Into` conversions of the dispatcher, and
the three weight-expression queries `WeighData` / `ClassifyDispatch` /
`PaysFee` of `frame_support::dispatch` (not part of this snapshot). -/
structure Externals (V W O P E A B : Type) where
  pallet_method : String → O → List V → Except B A
  into_post : A → P
  into_error : B → E
  weigh_data : W → List V → Nat
  classify_dispatch : W → List V → DispatchClass
  pays_fee : W → List V → Bool

/-- Source lines 157-186: the emitted `get_dispatch_info`.  Each real arm
binds the variant's arguments by reference (purely, here), lets
`__pallet_base_weight` be that method's declared weight expression, queries
`weigh_data`, `classify_dispatch` and `pays_fee` on it against the identical
argument tuple, and packs the results into `DispatchInfo`.  The `__Ignore`
arm is `unreachable!`, modelled by eliminating the uninhabited field. -/
def get_dispatch_info (X : Externals V W O P E A B) (methods : List (MethodSpec W)) :
    Call V methods.length → DispatchInfo
  | .variant i args =>
      let base_weight := (methods.get i).weight
      { weight := X.weigh_data base_weight args
        dispatch_class := X.classify_dispatch base_weight args
        pays_fee := X.pays_fee base_weight args }
  | .__Ignore _ never => never.elim

/-- Source lines 209-228: the emitted `dispatch_bypass_filter`.  Each real
arm destructures the variant's bound arguments in declared order, invokes
the pallet method of the same name with `(origin, args...)`, and applies
`.map(Into::into)` to the success and `.map_err(Into::into)` to the failure.
The `__Ignore` arm is `unreachable!`. -/
def dispatch_bypass_filter (X : Externals V W O P E A B) (methods : List (MethodSpec W))
    (call : Call V methods.length) (origin : O) : Except E P :=
  match call with
  | .variant i args =>
      ((X.pallet_method (methods.get i).name origin args).map X.into_post).mapError
        X.into_error
  | .__Ignore _ never => never.elim

/-- Source lines 192-197: the emitted `get_call_name` — each real arm returns
the stringified method name; the `__Ignore` arm is `unreachable!`. -/
def get_call_name (methods : List (MethodSpec W)) : Call V methods.length → String
  | .variant i _ => (methods.get i).name
  | .__Ignore _ never => never.elim

/-- Source lines 199-201: the emitted `get_call_names` — the stringified
declared method names, sentinel excluded. -/
def get_call_names (methods : List (MethodSpec W)) : List String :=
  fn_name methods

/-- The arm order shared by the emitted matches of `dispatch_bypass_filter`,
`get_dispatch_info` and `get_call_name`: one arm per method in declaration
order, then the `__Ignore` arm last.  `arm_index` maps a `Call` value to the
index of the arm that handles it; the sentinel arm (index `methods.length`)
is never the result because the sentinel's `Never` field is uninhabited. -/
def arm_index (methods : List (MethodSpec W)) : Call V methods.length → Nat
  | .variant i _ => i.val
  | .__Ignore _ never => never.elim

/-- The arm tags of the emitted `dispatch_bypass_filter` match (source lines
213-227): one per method, plus the final `__Ignore` arm. -/
def dispatch_match_arms (methods : List (MethodSpec W)) : List String :=
  fn_name methods ++ ["__Ignore"]

/-- The arm tags of the emitted `get_dispatch_info` match (source lines
158-185): one per method, plus the final `__Ignore` arm. -/
def dispatch_info_match_arms (methods : List (MethodSpec W)) : List String :=
  fn_name methods ++ ["__Ignore"]

/-- One argument entry of the metadata table (source lines 248-255). -/
structure FunctionArgumentMetadata where
  name : String
  ty : String
deriving DecidableEq

/-- One method entry of the metadata table (source lines 242-261). -/
structure FunctionMetadata where
  name : String
  arguments : List FunctionArgumentMetadata
  documentation : List String
deriving DecidableEq

/-- Source lines 240-263: the emitted `call_functions` — one
`FunctionMetadata` per method, in declaration order, carrying the method
name, the `(name, type-string)` argument pairs in declared order (the type
string being the compact-aware `args_metadata_type` entry), and the doc
strings in declared order. -/
def call_functions (methods : List (MethodSpec W)) : List FunctionMetadata :=
  methods.map (fun m =>
    { name := m.name
      arguments := m.args.map (fun a => { name := a.2.1, ty := arg_metadata_type a })
      documentation := m.docs })

/-- Modelled from the spec: the derived `Encode`/`Decode` pair comes from the
external codec crate (spec section 6 lists the serialization contract as a
collaborator).  An `ArgCodec` is the per-field contract: an encoder and a
decoder per compact flag — the flag mirrors the `#[codec(compact)]` field
attribute — such that decoding an encoded value off the front of a stream
returns the value and the remaining bytes. -/
structure ArgCodec (V : Type) where
  enc : Bool → V → List Nat
  dec : Bool → List Nat → Option (V × List Nat)
  dec_enc : ∀ (compact : Bool) (v : V) (rest : List Nat),
    dec compact (enc compact v ++ rest) = some (v, rest)

/-- The compact flags of a method's fields, in declared order. -/
def field_flags (m : MethodSpec W) : List Bool :=
  m.args.map (fun a => a.1)

/-- Modelled from the spec: derived field-by-field encoding of a variant's
payload, each field under its own compact flag. -/
def encode_fields (C : ArgCodec V) : List Bool → List V → List Nat
  | compact :: fs, v :: vs => C.enc compact v ++ encode_fields C fs vs
  | _, _ => []

/-- Modelled from the spec: derived field-by-field decoding of a variant's
payload. -/
def decode_fields (C : ArgCodec V) : List Bool → List Nat → Option (List V × List Nat)
  | [], bytes => some ([], bytes)
  | compact :: fs, bytes =>
      match C.dec compact bytes with
      | some (v, rest) =>
          match decode_fields C fs rest with
          | some (vs, rest2) => some (v :: vs, rest2)
          | none => none
      | none => none

/-- Modelled from the spec: the derived enum encoder.  A real variant is
encoded as its variant index followed by its fields; the `__Ignore` variant
carries `#[codec(skip)]` (source line 145) and does not consume an index, so
the `i`-th declared method encodes under index `i`.  The sentinel itself is
never encoded — its uninhabited field is eliminated. -/
def encode_call (C : ArgCodec V) (methods : List (MethodSpec W)) :
    Call V methods.length → List Nat
  | .variant i args => i.val :: encode_fields C (field_flags (methods.get i)) args
  | .__Ignore _ never => never.elim

/-- Modelled from the spec: the derived enum decoder — read the variant
index, reject it if out of range, then decode that variant's fields under
their declared compact flags.  The skipped `__Ignore` variant is never
produced. -/
def decode_call (C : ArgCodec V) (methods : List (MethodSpec W)) :
    List Nat → Option (Call V methods.length × List Nat)
  | [] => none
  | b :: rest =>
      if h : b < methods.length then
        match decode_fields C (field_flags (methods.get ⟨b, h⟩)) rest with
        | some (vs, rest2) => some (.variant ⟨b, h⟩ vs, rest2)
        | none => none
      else none

/-- A tiny concrete method table used to witness the theorems: one method
`set_value(new: u64)` whose argument is compact, with weight expression `10`
(over `W := Nat`). -/
def ex_methods : List (MethodSpec Nat) :=
  [{ name := "set_value"
     args := [(true, "new", "u64")]
     weight := 10
     docs := ["Sets the value."] }]

/-- Concrete external collaborators over `Nat` everywhere, used to witness
the dispatch and classification theorems. -/
def ex_externals : Externals Nat Nat Nat Nat Nat Nat Nat :=
  { pallet_method := fun name origin args =>
      if name = "set_value" then Except.ok (origin + args.sum) else Except.error 7
    into_post := fun a => a + 1
    into_error := fun b => b + 2
    weigh_data := fun w args => w + args.length
    classify_dispatch := fun _ _ => DispatchClass.Normal
    pays_fee := fun _ _ => true }

/-- A concrete field codec over `Nat` used to witness the round-trip
theorem: every value is its own one-byte encoding. -/
def ex_codec : ArgCodec Nat :=
  { enc := fun _ v => [v]
    dec := fun _ bytes =>
      match bytes with
      | [] => none
      | b :: rest => some (b, rest)
    dec_enc := fun _ _ _ => rfl }

/-- Appending strings appends their character data. -/
theorem string_data_append (a b : String) : (a ++ b).data = a.data ++ b.data := by
  cases a; cases b; rfl

/-- The character data of a cleaned wrapped type: the `Compact<` prefix and
`>` suffix contain no whitespace and survive the cleaning, framing the
cleaned element type. -/
theorem clean_wrapped_data (t : String) :
    (clean_type_string ("Compact<" ++ t ++ ">")).data
      = "Compact<".data ++ t.data.filter (fun c => !c.isWhitespace) ++ ">".data := by
  show (("Compact<" ++ t ++ ">").data.filter (fun c => !c.isWhitespace)) = _
  rw [string_data_append, string_data_append, List.filter_append, List.filter_append]
  rw [show "Compact<".data.filter (fun c => !c.isWhitespace) = "Compact<".data from by decide]
  rw [show ">".data.filter (fun c => !c.isWhitespace) = ">".data from by decide]

/-- Cleaning the compact-wrapped form never gives the cleaned bare type:
the wrapper contributes nine extra characters. -/
theorem clean_wrapped_ne_clean (t : String) :
    clean_type_string ("Compact<" ++ t ++ ">") ≠ clean_type_string t := by
  intro h
  have h2 : (clean_type_string ("Compact<" ++ t ++ ">")).data.length
      = (clean_type_string t).data.length := congrArg (fun s => s.data.length) h
  rw [clean_wrapped_data] at h2
  have h3 : (clean_type_string t).data = t.data.filter (fun c => !c.isWhitespace) := rfl
  rw [h3] at h2
  simp only [List.length_append] at h2
  have h8 : "Compact<".data.length = 8 := by decide
  have h1 : ">".data.length = 1 := by decide
  rw [h8, h1] at h2
  omega

/-- Cleaning the compact-wrapped form never gives the bare declared type
string either: the cleaned result is whitespace-free, so if it equalled the
bare string that string would be fixed by cleaning, contradicting the nine
extra wrapper characters. -/
theorem clean_wrapped_ne_bare (t : String) :
    clean_type_string ("Compact<" ++ t ++ ">") ≠ t := by
  intro h
  have hdata : "Compact<".data ++ t.data.filter (fun c => !c.isWhitespace) ++ ">".data
      = t.data := by
    rw [← clean_wrapped_data, h]
  have hpre : ∀ c ∈ "Compact<".data, (!c.isWhitespace) = true := by decide
  have hgt : ∀ c ∈ ">".data, (!c.isWhitespace) = true := by decide
  have hnw : ∀ c ∈ t.data, (!c.isWhitespace) = true := by
    intro c hc
    rw [← hdata] at hc
    rcases List.mem_append.mp hc with hc2 | hc2
    · rcases List.mem_append.mp hc2 with hc3 | hc3
      · exact hpre c hc3
      · exact (List.mem_filter.mp hc3).2
    · exact hgt c hc2
  have hfix : t.data.filter (fun c => !c.isWhitespace) = t.data :=
    List.filter_eq_self.mpr hnw
  have hlen := congrArg List.length hdata
  rw [hfix] at hlen
  simp only [List.length_append] at hlen
  have h8 : "Compact<".data.length = 8 := by decide
  have h1 : ">".data.length = 1 := by decide
  rw [h8, h1] at hlen
  omega

/-- The counter cell on any thread holds `n` (mod `2^64`) after `n`
increments: it only ever moves forward and is never reset. -/
theorem thread_counter_val (t n : Nat) : (thread_counter t n).val = n % U64_SIZE := by
  induction n with
  | zero => simp [thread_counter, U64_SIZE]
  | succ n ih =>
      have h1 : (1 : Nat) % U64_SIZE = 1 := by decide
      show (((thread_counter t n).inc).2).val = (n + 1) % U64_SIZE
      rw [Nat.add_mod n 1, h1]
      simp [Counter.inc, ih]

/-- The value handed out by the `n`-th increment on thread `t`. -/
theorem thread_nth_count_eq (t n : Nat) : thread_nth_count t n = n % U64_SIZE := by
  show (thread_counter t n).val = n % U64_SIZE
  exact thread_counter_val t n

/-- A decimal digit's character reads back to the digit. -/
theorem digitChar_toNat (d : Nat) (h : d < 10) : (Nat.digitChar d).toNat - 48 = d := by
  interval_cases d <;> rfl

/-- Reading back the decimal rendering recovers the number. -/
theorem unformat_format (n : Nat) : unformatChars (formatNatChars n) = n := by
  by_cases h : n = 0
  · subst h
    decide
  · simp only [formatNatChars, if_neg h, unformatChars, List.map_map]
    have hmap : List.map ((fun c => c.toNat - 48) ∘ Nat.digitChar) (Nat.digits 10 n).reverse
        = List.map id (Nat.digits 10 n).reverse := by
      apply List.map_congr_left
      intro d hd
      have hlt : d < 10 := Nat.digits_lt_base (by norm_num) (List.mem_reverse.mp hd)
      simpa using digitChar_toNat d hlt
    rw [hmap, List.map_id, List.reverse_reverse, Nat.ofDigits_digits]

/-- Two counter values render to the same helper identifier only if they are
equal: the shared prefix cancels and the decimal rendering is injective. -/
theorem probe_ident_inj (i j : Nat) (h : probe_ident i = probe_ident j) : i = j := by
  have h2 : "__is_call_part_defined_".data ++ formatNatChars i
      = "__is_call_part_defined_".data ++ formatNatChars j := congrArg String.data h
  have h3 := List.append_cancel_left h2
  have h4 := congrArg unformatChars h3
  rwa [unformat_format, unformat_format] at h4

/-- Decoding the field-by-field encoding of a payload off the front of a
stream recovers the payload and the remaining bytes, given the per-field
codec contract. -/
theorem decode_encode_fields (C : ArgCodec V) (flags : List Bool) (vs : List V)
    (rest : List Nat) (h : vs.length = flags.length) :
    decode_fields C flags (encode_fields C flags vs ++ rest) = some (vs, rest) := by
  induction flags generalizing vs rest with
  | nil =>
      cases vs with
      | nil => simp [encode_fields, decode_fields]
      | cons v vs => simp at h
  | cons f fs ih =>
      cases vs with
      | nil => simp at h
      | cons v vs =>
          have hlen : vs.length = fs.length := by simpa using h
          show decode_fields C (f :: fs) ((C.enc f v ++ encode_fields C fs vs) ++ rest)
              = some (v :: vs, rest)
          rw [List.append_assoc]
          simp only [decode_fields, C.dec_enc, ih vs rest hlen]

/-- C1.  For every real variant of the synthesized `Call` type,
`dispatch_bypass_filter(call, origin)` destructures that variant's bound
arguments in declared order, invokes the pallet method of the same name with
`(origin, args...)`, and returns the success result through the uniform
into-post-info conversion and the failure result through the uniform
into-dispatch-error conversion, so every caller receives the same
`Result<PostDispatchInfo, DispatchError>` shape regardless of which method
ran. -/
theorem dispatch_bypass_filter_invokes_method {V W O P E A B : Type}
    (X : Externals V W O P E A B) (methods : List (MethodSpec W))
    (i : Fin methods.length) (args : List V) (origin : O) :
    dispatch_bypass_filter X methods (Call.variant i args) origin
        = ((X.pallet_method (methods.get i).name origin args).map X.into_post).mapError
            X.into_error
    ∧ (∀ a, X.pallet_method (methods.get i).name origin args = Except.ok a →
        dispatch_bypass_filter X methods (Call.variant i args) origin
          = Except.ok (X.into_post a))
    ∧ (∀ b, X.pallet_method (methods.get i).name origin args = Except.error b →
        dispatch_bypass_filter X methods (Call.variant i args) origin
          = Except.error (X.into_error b)) := by
  refine ⟨rfl, ?_, ?_⟩ <;> intro x hx <;>
    show ((X.pallet_method (methods.get i).name origin args).map X.into_post).mapError
        X.into_error = _ <;>
    rw [hx] <;> rfl

/-- C1 witness: dispatching `Call::set_value(7)` with origin `5` on the
concrete example invokes `set_value(5, 7)` and returns its success through
the into-post conversion. -/
theorem dispatch_bypass_filter_invokes_method_witness :
    dispatch_bypass_filter ex_externals ex_methods (Call.variant ⟨0, by decide⟩ [7]) 5
      = Except.ok (ex_externals.into_post 12) :=
  (dispatch_bypass_filter_invokes_method ex_externals ex_methods ⟨0, by decide⟩ [7] 5).2.1
    12 rfl

/-- C3.  For every real variant, `get_dispatch_info` evaluates that method's
declared weight expression through exactly the three queries
`weigh_data`, `classify_dispatch` and `pays_fee`, each applied to the
identical tuple of the variant's bound arguments, and returns the resulting
`{weight, class, pays_fee}` triple as `DispatchInfo`.  The source takes the
call by shared reference (`match *self` with `ref` bindings); the embedding
is a pure function of the call value, which it neither mutates nor
consumes. -/
theorem get_dispatch_info_three_queries {V W O P E A B : Type}
    (X : Externals V W O P E A B) (methods : List (MethodSpec W))
    (i : Fin methods.length) (args : List V) :
    get_dispatch_info X methods (Call.variant i args)
      = { weight := X.weigh_data (methods.get i).weight args
          dispatch_class := X.classify_dispatch (methods.get i).weight args
          pays_fee := X.pays_fee (methods.get i).weight args } := rfl

/-- C8.  The sentinel `__Ignore` variant can never be observed: its second
field is uninhabited, so every `Call` value is a real variant, the arm
taken by the generated matches is always a real arm (never the sentinel arm
at position `methods.length`), and `get_call_name` always answers from a
real arm.  Reaching the sentinel is impossible rather than a reported
error. -/
theorem sentinel_never_observed (V W : Type) (methods : List (MethodSpec W))
    (c : Call V methods.length) :
    ∃ (i : Fin methods.length) (args : List V),
      c = Call.variant i args
      ∧ arm_index methods c = i.val
      ∧ arm_index methods c ≠ methods.length
      ∧ get_call_name methods c = (methods.get i).name := by
  cases c with
  | __Ignore phantom never => exact never.elim
  | variant i args => exact ⟨i, args, rfl, rfl, Nat.ne_of_lt i.isLt, rfl⟩

/-- C10.  For every real variant, `get_call_name` returns exactly the
stringified declared method name of that variant, and `get_call_names`
returns the declared method names in declaration order with the sentinel
excluded, so its length equals the number of declared methods. -/
theorem get_call_name_correct (V W : Type) (methods : List (MethodSpec W))
    (i : Fin methods.length) (args : List V) :
    get_call_name methods (Call.variant i args) = (methods.get i).name
    ∧ get_call_names methods = methods.map (fun m => m.name)
    ∧ (get_call_names methods).length = methods.length :=
  ⟨rfl, rfl, by simp [get_call_names, fn_name]⟩

/-- C2.  For every normalized method table with `N` method declarations, the
generated `Call` enum has exactly `N + 1` variants (the `N` declared methods
plus the `__Ignore` sentinel), the matches of `get_dispatch_info` and
`dispatch_bypass_filter` each have exactly `N + 1` arms, every real arm is
reached by some well-formed `Call` value of its variant, and no value ever
reaches the sentinel arm (position `N`). -/
theorem call_enum_match_arm_counts (V W : Type) [Inhabited V]
    (methods : List (MethodSpec W)) :
    (call_enum_variants methods).length = methods.length + 1
    ∧ (dispatch_match_arms methods).length = methods.length + 1
    ∧ (dispatch_info_match_arms methods).length = methods.length + 1
    ∧ (∀ j (hj : j < methods.length), ∃ args : List V,
        args.length = (methods.get ⟨j, hj⟩).args.length
        ∧ arm_index methods (Call.variant ⟨j, hj⟩ args) = j)
    ∧ (∀ c : Call V methods.length, arm_index methods c < methods.length) := by
  refine ⟨by simp [call_enum_variants, fn_name], by simp [dispatch_match_arms, fn_name],
    by simp [dispatch_info_match_arms, fn_name], ?_, ?_⟩
  · intro j hj
    exact ⟨List.replicate ((methods.get ⟨j, hj⟩).args.length) default,
      List.length_replicate _ _, rfl⟩
  · intro c
    cases c with
    | __Ignore phantom never => exact never.elim
    | variant i args => exact i.isLt

/-- C2 witness: the single-method example table yields two enum variants and
two match arms, and arm `0` is reached by a well-formed value of the first
variant. -/
theorem call_enum_match_arm_counts_witness :
    (call_enum_variants ex_methods).length = 2
    ∧ (dispatch_match_arms ex_methods).length = 2
    ∧ (∃ args : List Nat,
        args.length = (ex_methods.get ⟨0, by decide⟩).args.length
        ∧ arm_index ex_methods (Call.variant ⟨0, by decide⟩ args) = 0) :=
  ⟨(call_enum_match_arm_counts Nat Nat ex_methods).1,
   (call_enum_match_arm_counts Nat Nat ex_methods).2.1,
   (call_enum_match_arm_counts Nat Nat ex_methods).2.2.2.1 0 (by decide)⟩

/-- C4 counterexample: on a pallet that never declared a call block, the
probe does emit a compile-time error, but its message is the source's
`compile_error!` text, not the message quoted by the claim. -/
theorem probe_error_message_counterexample :
    (Def.mk (none : Option (CallDef Unit))).call = none
    ∧ (maybe_compile_error (Def.mk (none : Option (CallDef Unit)))).isSome = true
    ∧ maybe_compile_error (Def.mk (none : Option (CallDef Unit)))
        ≠ some "module X has no call block defined" := by
  refine ⟨rfl, rfl, ?_⟩
  intro h
  exact absurd (Option.some.inj h) (by decide)

/-- C4 (amended).  Expanding the probe yields a compile-time error — with
the message `Pallet does not have #[pallet::call] defined. Did you forget to
include it?` — if and only if the module never declared a call block at all;
if a call block was declared, even one with zero methods, the probe expands
to nothing, so declared-but-empty and never-declared are distinguishable. -/
theorem probe_error_iff_call_undeclared (W : Type) (d : Def W) :
    (d.call = none → maybe_compile_error d = some no_call_message)
    ∧ (∀ c, d.call = some c → maybe_compile_error d = none)
    ∧ (maybe_compile_error d = some no_call_message → d.call = none) := by
  rcases d with ⟨call⟩
  cases call <;> simp [maybe_compile_error]

/-- C4 witness: a pallet with no call block triggers the error; a pallet
with a declared but empty call block expands to a no-op. -/
theorem probe_error_iff_call_undeclared_witness :
    maybe_compile_error (Def.mk (none : Option (CallDef Unit))) = some no_call_message
    ∧ maybe_compile_error
        (Def.mk (some (CallDef.mk ([] : List (MethodSpec Unit)) []))) = none :=
  ⟨(probe_error_iff_call_undeclared Unit (Def.mk none)).1 rfl,
   (probe_error_iff_call_undeclared Unit
      (Def.mk (some (CallDef.mk [] [])))).2.1 (CallDef.mk [] []) rfl⟩

/-- C5.  For every argument marked compact, the compact wrapping is applied
consistently at both sites: the enum field carries the `#[codec(compact)]`
attribute and the exported metadata type string equals the canonicalized
string of the compact-wrapped form of the declared type — never the bare
declared type string (whether canonicalized or raw). -/
theorem compact_wrapping_consistent (W : Type) (methods : List (MethodSpec W))
    (i : Fin methods.length) (j : Fin (methods.get i).args.length)
    (hc : ((methods.get i).args.get j).1 = true) :
    arg_field_attr ((methods.get i).args.get j) = "#[codec(compact)]"
    ∧ arg_metadata_type ((methods.get i).args.get j)
        = clean_type_string ("Compact<" ++ ((methods.get i).args.get j).2.2 ++ ">")
    ∧ arg_metadata_type ((methods.get i).args.get j)
        ≠ clean_type_string (((methods.get i).args.get j).2.2)
    ∧ arg_metadata_type ((methods.get i).args.get j) ≠ ((methods.get i).args.get j).2.2
    ∧ (args_compact_attr methods)[i.val]?
        = some ((methods.get i).args.map arg_field_attr)
    ∧ (args_metadata_type methods)[i.val]?
        = some ((methods.get i).args.map arg_metadata_type) := by
  have hc2 : methods[i.val].args[j.val].1 = true := by simpa using hc
  have he : arg_metadata_type ((methods.get i).args.get j)
      = clean_type_string ("Compact<" ++ ((methods.get i).args.get j).2.2 ++ ">") := by
    simp [arg_metadata_type, hc2]
  refine ⟨by simp [arg_field_attr, hc2], he, ?_, ?_, ?_, ?_⟩
  · rw [he]
    exact clean_wrapped_ne_clean _
  · rw [he]
    exact clean_wrapped_ne_bare _
  · simp [args_compact_attr]
  · simp [args_metadata_type]

/-- C5 witness (spec scenario C): for a compact `u64` argument, the field
carries the compact attribute and the metadata type string is the
canonicalized compact-wrapped form `Compact<u64>`, not the bare `u64`. -/
theorem compact_wrapping_consistent_witness :
    arg_field_attr (true, "new", "u64") = "#[codec(compact)]"
    ∧ arg_metadata_type (true, "new", "u64") = clean_type_string ("Compact<" ++ "u64" ++ ">")
    ∧ arg_metadata_type (true, "new", "u64") ≠ "u64" :=
  ⟨(compact_wrapping_consistent Nat ex_methods ⟨0, by decide⟩ ⟨0, by decide⟩ (by decide)).1,
   (compact_wrapping_consistent Nat ex_methods ⟨0, by decide⟩ ⟨0, by decide⟩ (by decide)).2.1,
   (compact_wrapping_consistent Nat ex_methods ⟨0, by decide⟩ ⟨0, by decide⟩
      (by decide)).2.2.2.1⟩

/-- C6 counterexample: the counter is declared `thread_local!`, not
process-wide.  Two distinct modules expanded on two different threads of the
same compilation unit (each thread's cell freshly initialized to zero) both
draw count `0` and receive the identical helper identifier
`__is_call_part_defined_0`, refuting the claim's never-identical
guarantee. -/
theorem probe_identifier_cross_thread_collision :
    ((0, 0) : Nat × Nat) ≠ ((1, 0) : Nat × Nat)
    ∧ thread_nth_count 0 0 = thread_nth_count 1 0
    ∧ probe_ident (thread_nth_count 0 0) = probe_ident (thread_nth_count 1 0) :=
  ⟨by decide, rfl, rfl⟩

/-- C6 (amended).  The counter is thread-local: each thread owns one scalar,
monotonically increasing, never reset during that thread's lifetime, and
bounded only by the host `u64` width.  Consequently any two distinct modules
expanded on the same thread of a compilation unit receive distinct helper
identifiers (modules expanded on different threads may collide — the source
itself calls the identifier only relatively unique). -/
theorem probe_identifiers_unique_per_thread (t i j : Nat)
    (hi : i < U64_SIZE) (hj : j < U64_SIZE) (hne : i ≠ j) :
    thread_nth_count t i ≠ thread_nth_count t j
    ∧ probe_ident (thread_nth_count t i) ≠ probe_ident (thread_nth_count t j)
    ∧ (i < j → thread_nth_count t i < thread_nth_count t j) := by
  have ei : thread_nth_count t i = i := by
    rw [thread_nth_count_eq, Nat.mod_eq_of_lt hi]
  have ej : thread_nth_count t j = j := by
    rw [thread_nth_count_eq, Nat.mod_eq_of_lt hj]
  refine ⟨by rw [ei, ej]; exact hne, ?_, by intro hij; rw [ei, ej]; exact hij⟩
  rw [ei, ej]
  intro h
  exact hne (probe_ident_inj i j h)

/-- C6 witness: the first two modules expanded on one thread receive the
distinct identifiers derived from counts `0` and `1`. -/
theorem probe_identifiers_unique_per_thread_witness :
    probe_ident (thread_nth_count 0 0) ≠ probe_ident (thread_nth_count 0 1) :=
  (probe_identifiers_unique_per_thread 0 0 1 (by decide) (by decide) (by decide)).2.1

/-- C7.  The metadata table produced by `call_functions` has one entry per
declared method, and its `N`-th entry carries the `N`-th method's name, its
`(name, type-string)` argument pairs in the method's declared argument
order, and its documentation strings in declared order. -/
theorem call_functions_order (W : Type) (methods : List (MethodSpec W)) :
    (call_functions methods).length = methods.length
    ∧ ∀ i (hi : i < methods.length),
        (call_functions methods)[i]? =
          some { name := (methods.get ⟨i, hi⟩).name
                 arguments := (methods.get ⟨i, hi⟩).args.map
                   (fun a => { name := a.2.1, ty := arg_metadata_type a })
                 documentation := (methods.get ⟨i, hi⟩).docs } := by
  refine ⟨by simp [call_functions], ?_⟩
  intro i hi
  simp [call_functions, List.getElem?_map, List.getElem?_eq_getElem hi]

/-- C7 witness: the single entry of the example table's metadata, evaluated
concretely. -/
theorem call_functions_order_witness :
    (call_functions ex_methods)[0]? =
      some { name := "set_value"
             arguments := [{ name := "new", ty := "Compact<u64>" }]
             documentation := ["Sets the value."] } :=
  (call_functions_order Nat ex_methods).2 0 (by decide)

/-- C9.  For every real-variant `Call` value whose argument list matches its
variant's declared arity, over every combination of compact flags, encoding
with the derived encoder and decoding with the derived decoder yields a
value structurally equal to the original (and consumes exactly the encoded
bytes). -/
theorem call_encode_roundtrip {V W : Type} (C : ArgCodec V)
    (methods : List (MethodSpec W)) (i : Fin methods.length) (args : List V)
    (hlen : args.length = (methods.get i).args.length) :
    decode_call C methods (encode_call C methods (Call.variant i args))
      = some (Call.variant i args, []) := by
  have hflags : args.length = (field_flags (methods.get i)).length := by
    simpa [field_flags] using hlen
  show decode_call C methods
      (i.val :: encode_fields C (field_flags (methods.get i)) args) = _
  have henc := decode_encode_fields C (field_flags (methods.get i)) args [] hflags
  rw [List.append_nil] at henc
  simp only [decode_call]
  rw [dif_pos i.isLt]
  simp only [Fin.eta, henc]

/-- C9 witness: the compact single-argument call `set_value(7)` round-trips
through the example codec. -/
theorem call_encode_roundtrip_witness :
    decode_call ex_codec ex_methods
        (encode_call ex_codec ex_methods (Call.variant ⟨0, by decide⟩ [7]))
      = some (Call.variant ⟨0, by decide⟩ [7], []) :=
  call_encode_roundtrip ex_codec ex_methods ⟨0, by decide⟩ [7] (by decide)

end SubstrateCall
